import Mathlib

/-!
Verification development for the smt-metrics analysis pipeline.  It
embeds the derivation-chain reconstruction (analysis/edit_paths.py) and
the pairwise semantic classification with transitive-redundancy pruning
(analysis/semantic_comparison.py) as executable Lean definitions, and
proves or refutes the specified properties about them.  External
effects (the z3 subprocess, the file system, the cached solver-check
table) enter as explicit parameters: an oracle outcome value, a
path-existence predicate, and a basename-keyed record map.
-/

namespace SmtMetrics

/-- Outcome of one external z3 process invocation as observed by
`check_z3_smt2` (semantic_comparison.py, lines 16-32): the process may
complete with some stdout text, exceed the timeout
(`subprocess.TimeoutExpired`), or raise some other exception. -/
inductive ProcOutcome where
  | completed (stdout : String)
  | timedOut
  | raised (msg : String)
  deriving DecidableEq, Repr

/-- Embedding of Python `str.strip()` (over the ASCII whitespace
characters): drop leading and trailing whitespace from a string.
Implemented directly on the character list so that it evaluates inside
the kernel. -/
def strip (s : String) : String :=
  ⟨((s.data.dropWhile Char.isWhitespace).reverse.dropWhile Char.isWhitespace).reverse⟩

/-- Embedding of Python `str.endswith`: is `suffix` a suffix of `s`. -/
def ends_with (s suffix : String) : Bool :=
  suffix.data.isSuffixOf s.data

/-- Embedding of `check_z3_smt2` (semantic_comparison.py, lines 11-32):
on completion it returns `stdout.strip()`, on timeout the string "TO",
and on any other exception the string "ERROR: " followed by the
exception text. -/
def check_z3_smt2 : ProcOutcome → String
  | .completed out => strip out
  | .timedOut => "TO"
  | .raised e => "ERROR: " ++ e

/-- Outcome of the preparatory part of `check_semantic_comparison`
(semantic_comparison.py, lines 53-76: reading both files, dropping
"(get-assignment)", parsing with z3, building the two solvers): either
it succeeds, or an OSError is raised, or some other exception is
raised. -/
inductive PrepOutcome where
  | ok
  | osError (msg : String)
  | exn (msg : String)
  deriving DecidableEq, Repr

/-- Embedding of `check_semantic_comparison` (semantic_comparison.py,
lines 35-93).  `prep` abstracts the file reading / parsing / solver
construction; `o1` is the process outcome of the query for the first
solver (assertions of spec 1 plus the negated conjunction of spec 2)
and `o2` the outcome for the second solver.  The decision table of
lines 78-87 maps the two result strings to a relation label; both
exception handlers (lines 88-93) return "Z3_ERROR". -/
def check_semantic_comparison (prep : PrepOutcome) (o1 o2 : ProcOutcome) : String :=
  match prep with
  | .osError _ => "Z3_ERROR"
  | .exn _ => "Z3_ERROR"
  | .ok =>
    let res_s1not2 := check_z3_smt2 o1
    let res_s2not1 := check_z3_smt2 o2
    if res_s1not2 = "unsat" ∧ res_s2not1 = "unsat" then "equivalent"
    else if res_s1not2 = "sat" ∧ res_s2not1 = "sat" then "incomparable"
    else if res_s1not2 = "unsat" ∧ res_s2not1 = "sat" then "s1_refines_s2"
    else if res_s1not2 = "sat" ∧ res_s2not1 = "unsat" then "s2_refines_s1"
    else "unknown"

/-- Helper for `spec_first_token`: split a character list into its
maximal whitespace-free words, accumulating the current word reversed. -/
def words_aux : List Char → List Char → List String
  | [], acc => if acc.isEmpty then [] else [⟨acc.reverse⟩]
  | c :: cs, acc =>
    if c.isWhitespace then
      if acc.isEmpty then words_aux cs [] else (⟨acc.reverse⟩ : String) :: words_aux cs []
    else words_aux cs (c :: acc)

/-- The whitespace-separated words of a string. -/
def words (s : String) : List String := words_aux s.data []

/-- Specification-side definition (spec section 4.2): the first token
among sat, unsat, unknown scanned from the solver's whitespace-
separated output stream.  The source function `check_z3_smt2` is
compared against this in claim C7. -/
def spec_first_token (out : String) : Option String :=
  (words out).find? (fun t => t == "sat" || t == "unsat" || t == "unknown")

/-- Path of the stored artifact for a script id, built as
`data/spec/<id>.smt2` throughout edit_paths.py and
semantic_comparison.py. -/
def specPath (id : String) : String := "data/spec/" ++ id ++ ".smt2"

/-- Embedding of `os.path.basename`: the part of a path after its last
"/" separator (the longest "/"-free suffix of the path). -/
def basename (p : String) : String :=
  ⟨(p.data.reverse.takeWhile (fun c => c != '/')).reverse⟩

/-- One run of the while loop of `get_derivation_chain` (edit_paths.py,
lines 34-51), with explicit fuel.  `dmap` is the derivation map as an
association list, `exf` tells which file paths exist on disk, `visited`
is the visited set, `chain` the accumulator.  Loop body: stop when
`current` is not a key of the map or was already visited; otherwise
mark it visited and read its parent; stop if the parent id is the empty
(falsy) string; if the parent's artifact is missing and the path is not
the "nan.smt2" sentinel, advance to the parent without appending it;
otherwise append the parent and advance.  One unit of fuel is spent per
iteration; every iteration inserts a fresh key of `dmap` into
`visited`, so `dmap.length + 1` units are never exhausted (theorem
`chainWalk_stable`). -/
def chainWalk (dmap : List (String × String)) (exf : String → Bool) :
    Nat → String → List String → List String → List String
  | 0, _, _, chain => chain
  | fuel + 1, current, visited, chain =>
    match dmap.lookup current with
    | none => chain
    | some next_id =>
      if current ∈ visited then chain
      else if next_id = "" then chain
      else if ¬ exf (specPath next_id) ∧ ¬ ends_with (specPath next_id) "nan.smt2" then
        chainWalk dmap exf fuel next_id (current :: visited) chain
      else
        chainWalk dmap exf fuel next_id (current :: visited) (chain ++ [next_id])

/-- Embedding of `get_derivation_chain` (edit_paths.py, lines 34-51):
the chain starts as `[start_id]`, the visited set empty, and the walk
runs with enough fuel for every iteration the Python while loop can
make. -/
def get_derivation_chain (start_id : String) (dmap : List (String × String))
    (exf : String → Bool) : List String :=
  chainWalk dmap exf (dmap.length + 1) start_id [] [start_id]

/-- Embedding of the subsequence-containment filter of
`fmp_smt_longest_chain_overview` (edit_paths.py, lines 59-66): a chain
is kept unless its id set is contained in the id set of a different
chain of the collection. -/
def longest_chains (all_chains : List (List String)) : List (List String) :=
  all_chains.filter (fun chain =>
    ! all_chains.any (fun other =>
      decide (chain.toFinset ⊆ other.toFinset) && chain != other))

/-- Embedding of the chain-building part of
`fmp_smt_longest_chain_overview` (edit_paths.py, lines 53-66): one
walk per id appearing in the edge table, then the containment filter. -/
def buildChains (dmap : List (String × String)) (exf : String → Bool) :
    List (List String) :=
  longest_chains ((dmap.map Prod.fst).map (fun i => get_derivation_chain i dmap exf))

/-- State threaded through one non-consecutive-pair pass over a chain:
the pair count, the recorded index pairs, and the list of
`check_semantic_comparison` invocations made so far (each as the
ordered pair of file paths passed to it). -/
structure PairPassState where
  count : Nat
  pairs : List (Nat × Nat)
  calls : List (String × String)
  deriving DecidableEq, Repr

/-- Embedding of the `for k in range(i + 1, j)` scan of
`save_non_consecutive_equivalent_pairs` (semantic_comparison.py, lines
228-247), generalised over the target label exactly as in the three
sibling functions (lines 270-480).  It returns the final `skip` flag
together with the list of `check_semantic_comparison` calls issued
before the scan ended; the scan breaks at the first missing artifact,
ERROR check record, or target-labelled intermediate pair.  `classify`
abstracts `check_semantic_comparison` applied to two file paths, `exf`
abstracts `os.path.exists`, and `cmap` the `check_map` lookup with
default `[]`. -/
def scan_intermediates (classify : String → String → String) (exf : String → Bool)
    (cmap : String → List String) (target : String) (chain : List String) :
    List Nat → Bool × List (String × String)
  | [] => (false, [])
  | k :: ks =>
    let p1 := specPath (chain.getD (k - 1) "")
    let p2 := specPath (chain.getD k "")
    if ¬ exf p1 ∨ ¬ exf p2 then (true, [])
    else if "ERROR" ∈ cmap (basename p1) ∨ "ERROR" ∈ cmap (basename p2) then (true, [])
    else
      let inter_result := classify p1 p2
      if inter_result = target then (true, [(p1, p2)])
      else
        let rest := scan_intermediates classify exf cmap target chain ks
        (rest.1, (p1, p2) :: rest.2)

/-- Embedding of the body of the `for j in range(i + 2, n)` loop of
`save_non_consecutive_equivalent_pairs` (semantic_comparison.py, lines
221-261), generalised over the target label: skip the candidate when an
endpoint check record contains ERROR; otherwise scan the intermediate
adjacent pairs; if the scan set the skip flag, keep count and pairs
unchanged; otherwise classify the candidate directly and count and
record it when its label is the target. -/
def process_pair (classify : String → String → String) (exf : String → Bool)
    (cmap : String → List String) (target : String) (chain : List String)
    (st : PairPassState) (ij : Nat × Nat) : PairPassState :=
  let p1 := specPath (chain.getD ij.1 "")
  let p2 := specPath (chain.getD ij.2 "")
  if "ERROR" ∈ cmap (basename p1) ∨ "ERROR" ∈ cmap (basename p2) then st
  else
    let scan := scan_intermediates classify exf cmap target chain
      (List.range' (ij.1 + 1) (ij.2 - (ij.1 + 1)))
    if scan.1 then { st with calls := st.calls ++ scan.2 }
    else
      let result := classify p1 p2
      if result = target then
        { count := st.count + 1, pairs := st.pairs ++ [(ij.1, ij.2)],
          calls := st.calls ++ scan.2 ++ [(p1, p2)] }
      else
        { st with calls := st.calls ++ scan.2 ++ [(p1, p2)] }

/-- The candidate index pairs (i, j) with j at least i + 2, in the
order the two nested loops of semantic_comparison.py lines 220-221
produce them. -/
def candidate_pairs (n : Nat) : List (Nat × Nat) :=
  (List.range n).flatMap (fun i => (List.range' (i + 2) (n - (i + 2))).map (fun j => (i, j)))

/-- Embedding of the per-chain work of
`save_non_consecutive_equivalent_pairs` (semantic_comparison.py, lines
213-264), generalised over the target label: fold the pair step over
all candidate pairs starting from count 0 and empty lists.  For a chain
shorter than 3 the candidate list is empty, matching the `continue` of
line 219. -/
def process_chain (classify : String → String → String) (exf : String → Bool)
    (cmap : String → List String) (target : String) (chain : List String) :
    PairPassState :=
  (candidate_pairs chain.length).foldl
    (process_pair classify exf cmap target chain) ⟨0, [], []⟩

/-- Embedding of the per-chain loop of
`write_semanttic_comparison_results` (semantic_comparison.py, lines
112-135): for each adjacent index pair, an ERROR check record on either
endpoint appends "ERROR"; otherwise, if both spec files exist, the
classification label is appended; otherwise nothing is appended. -/
def consecutive_results (classify : String → String → String) (exf : String → Bool)
    (cmap : String → List String) (chain : List String) : List String :=
  if chain.length < 2 then []
  else
    (List.range (chain.length - 1)).filterMap (fun i =>
      let p1 := specPath (chain.getD i "")
      let p2 := specPath (chain.getD (i + 1) "")
      if "ERROR" ∈ cmap (basename p1) ∨ "ERROR" ∈ cmap (basename p2) then some "ERROR"
      else if exf p1 ∧ exf p2 then some (classify p1 p2)
      else none)

/-- The cached check record of a script contains "ERROR" (the
`check_map.get(basename, [])` tests of semantic_comparison.py). -/
def has_error_record (cmap : String → List String) (id : String) : Prop :=
  "ERROR" ∈ cmap (basename (specPath id))

instance (cmap : String → List String) (id : String) :
    Decidable (has_error_record cmap id) := by
  unfold has_error_record; infer_instance

/-- The intermediate adjacent pair at position k of a chain is usable
and does not already carry the target label: both artifacts exist,
neither check record contains ERROR, and the pair classifies to a label
different from the target. -/
def inter_ok (classify : String → String → String) (exf : String → Bool)
    (cmap : String → List String) (target : String) (chain : List String)
    (k : Nat) : Prop :=
  exf (specPath (chain.getD (k - 1) "")) = true ∧
  exf (specPath (chain.getD k "")) = true ∧
  ¬ has_error_record cmap (chain.getD (k - 1) "") ∧
  ¬ has_error_record cmap (chain.getD k "") ∧
  classify (specPath (chain.getD (k - 1) "")) (specPath (chain.getD k "")) ≠ target

instance (classify : String → String → String) (exf : String → Bool)
    (cmap : String → List String) (target : String) (chain : List String)
    (k : Nat) : Decidable (inter_ok classify exf cmap target chain k) := by
  unfold inter_ok; infer_instance

/-- Helper: a string starting with the "ERROR: " marker produced by the
exception handler of `check_z3_smt2` is never a short solver token. -/
theorem error_string_ne (m t : String) (ht : t.length < 7) : "ERROR: " ++ m ≠ t := by
  intro h
  have hd := congrArg String.data h
  rw [String.data_append] at hd
  have hlen := congrArg List.length hd
  rw [List.length_append] at hlen
  have h7 : ("ERROR: " : String).data.length = 7 := by decide
  have htl : t.data.length = t.length := rfl
  omega

/-- C2: for every pair of oracle outcomes of the two refinement
queries, the classifier returns equivalent exactly when both query
results are unsat, incomparable exactly when both are sat,
s1_refines_s2 exactly when the first is unsat and the second sat,
s2_refines_s1 exactly when the first is sat and the second unsat, and
unknown exactly in every other combination of outcomes. -/
theorem c2_decision_table (o1 o2 : ProcOutcome) :
    (check_semantic_comparison .ok o1 o2 = "equivalent" ↔
      check_z3_smt2 o1 = "unsat" ∧ check_z3_smt2 o2 = "unsat") ∧
    (check_semantic_comparison .ok o1 o2 = "incomparable" ↔
      check_z3_smt2 o1 = "sat" ∧ check_z3_smt2 o2 = "sat") ∧
    (check_semantic_comparison .ok o1 o2 = "s1_refines_s2" ↔
      check_z3_smt2 o1 = "unsat" ∧ check_z3_smt2 o2 = "sat") ∧
    (check_semantic_comparison .ok o1 o2 = "s2_refines_s1" ↔
      check_z3_smt2 o1 = "sat" ∧ check_z3_smt2 o2 = "unsat") ∧
    (check_semantic_comparison .ok o1 o2 = "unknown" ↔
      ¬ ((check_z3_smt2 o1 = "unsat" ∧ check_z3_smt2 o2 = "unsat") ∨
        (check_z3_smt2 o1 = "sat" ∧ check_z3_smt2 o2 = "sat") ∨
        (check_z3_smt2 o1 = "unsat" ∧ check_z3_smt2 o2 = "sat") ∨
        (check_z3_smt2 o1 = "sat" ∧ check_z3_smt2 o2 = "unsat"))) := by
  simp only [check_semantic_comparison]
  generalize check_z3_smt2 o1 = r1
  generalize check_z3_smt2 o2 = r2
  by_cases h1 : r1 = "unsat" <;> by_cases h2 : r1 = "sat" <;>
    by_cases h3 : r2 = "unsat" <;> by_cases h4 : r2 = "sat" <;>
    simp_all

/-- Witness for C2 at a concrete pair of outcomes. -/
theorem c2_decision_table_witness :
    check_semantic_comparison .ok (.completed " unsat ") (.completed "unsat") =
      "equivalent" :=
  (c2_decision_table (.completed " unsat ") (.completed "unsat")).1.mpr
    ⟨by decide, by decide⟩

/-- C7 counterexample: on a solver output stream carrying two result
tokens, the code does not return the first scanned token; it returns
the whole stripped output, which the decision table then treats as
unknown. -/
theorem c7_counterexample :
    spec_first_token "unsat\nunsat" = some "unsat" ∧
    check_z3_smt2 (.completed "unsat\nunsat") = "unsat\nunsat" ∧
    ("unsat\nunsat" : String) ≠ "unsat" ∧
    check_semantic_comparison .ok (.completed "unsat\nunsat") (.completed "unsat") =
      "unknown" := by
  refine ⟨by decide, by decide, by decide, by decide⟩

/-- C7 amended: a successful oracle query returns the entire output
stripped of surrounding whitespace (not the first scanned token); any
output whose stripped form is not exactly sat or unsat makes the pair
classification unknown, whichever side of the comparison it feeds. -/
theorem c7_amended (out : String) (o : ProcOutcome)
    (h1 : strip out ≠ "sat") (h2 : strip out ≠ "unsat") :
    check_z3_smt2 (.completed out) = strip out ∧
    check_semantic_comparison .ok (.completed out) o = "unknown" ∧
    check_semantic_comparison .ok o (.completed out) = "unknown" := by
  refine ⟨rfl, ?_, ?_⟩
  · simp only [check_semantic_comparison, check_z3_smt2]
    rw [if_neg (fun h => h2 h.1), if_neg (fun h => h1 h.1),
      if_neg (fun h => h2 h.1), if_neg (fun h => h1 h.1)]
  · simp only [check_semantic_comparison, check_z3_smt2]
    rw [if_neg (fun h => h2 h.2), if_neg (fun h => h1 h.2),
      if_neg (fun h => h1 h.2), if_neg (fun h => h2 h.2)]

/-- Witness for C7 amended at a concrete tokenless output. -/
theorem c7_amended_witness :
    check_z3_smt2 (.completed "foo bar") = "foo bar" ∧
    check_semantic_comparison .ok (.completed "foo bar") .timedOut = "unknown" := by
  have h := c7_amended "foo bar" .timedOut (by decide) (by decide)
  exact ⟨h.1.trans (by decide), h.2.1⟩

/-- C8 counterexample: a timed-out first query yields the label
unknown, not any error label, so the pair is not labeled error as the
claim states. -/
theorem c8_counterexample :
    check_semantic_comparison .ok .timedOut (.completed "unsat") = "unknown" ∧
    ("unknown" : String) ≠ "Z3_ERROR" ∧
    ("unknown" : String) ≠ "ERROR" ∧
    ("unknown" : String) ≠ "error" := by
  refine ⟨by decide, by decide, by decide, by decide⟩

/-- Concrete oracle environment for the C8 scenario on the chain
a, b, c, d: the comparison of a with c times out on its first query,
the comparison of b with d answers unsat twice, and every other
comparison answers sat twice. -/
def timeout_outcomes (p q : String) : ProcOutcome × ProcOutcome :=
  if p = specPath "a" ∧ q = specPath "c" then (.timedOut, .completed "unsat")
  else if p = specPath "b" ∧ q = specPath "d" then
    (.completed "unsat", .completed "unsat")
  else (.completed "sat", .completed "sat")

/-- The pair classifier induced by `timeout_outcomes`. -/
def classify_with_timeout (p q : String) : String :=
  check_semantic_comparison .ok (timeout_outcomes p q).1 (timeout_outcomes p q).2

/-- C8 amended: a pair whose classification involves a timed-out oracle
query is labeled unknown (not error), is never counted toward any
target-label total, and the batch continues with the next pair: in the
concrete pass over the chain a, b, c, d only the later pair (1, 3) is
counted, while the timed-out pair (0, 2) was classified (its call is in
the trace) and contributes nothing. -/
theorem c8_amended (o : ProcOutcome) :
    check_semantic_comparison .ok .timedOut o = "unknown" ∧
    check_semantic_comparison .ok o .timedOut = "unknown" ∧
    classify_with_timeout (specPath "a") (specPath "c") = "unknown" ∧
    (process_chain classify_with_timeout (fun _ => true) (fun _ => [])
      "equivalent" ["a", "b", "c", "d"]).pairs = [(1, 3)] ∧
    (process_chain classify_with_timeout (fun _ => true) (fun _ => [])
      "equivalent" ["a", "b", "c", "d"]).count = 1 ∧
    (specPath "a", specPath "c") ∈ (process_chain classify_with_timeout
      (fun _ => true) (fun _ => []) "equivalent" ["a", "b", "c", "d"]).calls := by
  refine ⟨?_, ?_, by decide, by decide, by decide, by decide⟩
  · simp only [check_semantic_comparison, check_z3_smt2]
    rw [if_neg (fun h => absurd h.1 (by decide)),
      if_neg (fun h => absurd h.1 (by decide)),
      if_neg (fun h => absurd h.1 (by decide)),
      if_neg (fun h => absurd h.1 (by decide))]
  · simp only [check_semantic_comparison, check_z3_smt2]
    rw [if_neg (fun h => absurd h.2 (by decide)),
      if_neg (fun h => absurd h.2 (by decide)),
      if_neg (fun h => absurd h.2 (by decide)),
      if_neg (fun h => absurd h.2 (by decide))]

/-- Witness for C8 amended at a concrete second outcome. -/
theorem c8_amended_witness :
    check_semantic_comparison .ok .timedOut (.completed "sat") = "unknown" :=
  (c8_amended (.completed "sat")).1

/-- C9 counterexample: a solver-subprocess failure on the first query
is mapped to the label unknown, not the error label Z3_ERROR, so the
failure is not propagated as error as the claim states. -/
theorem c9_counterexample :
    check_semantic_comparison .ok (.raised "boom") (.completed "unsat") = "unknown" ∧
    ("unknown" : String) ≠ "Z3_ERROR" := by
  refine ⟨by decide, by decide⟩

/-- C9 amended: an exception while reading or parsing either spec or
building the queries yields the error label Z3_ERROR, but a failure of
the solver subprocess inside an oracle query produces an "ERROR: "
result string that the decision table maps to unknown, on either side
of the comparison. -/
theorem c9_amended (m : String) (o1 o2 o : ProcOutcome) :
    check_semantic_comparison (.exn m) o1 o2 = "Z3_ERROR" ∧
    check_semantic_comparison (.osError m) o1 o2 = "Z3_ERROR" ∧
    check_semantic_comparison .ok (.raised m) o = "unknown" ∧
    check_semantic_comparison .ok o (.raised m) = "unknown" := by
  have hu : ("ERROR: " ++ m : String) ≠ "unsat" := error_string_ne m "unsat" (by decide)
  have hs : ("ERROR: " ++ m : String) ≠ "sat" := error_string_ne m "sat" (by decide)
  refine ⟨rfl, rfl, ?_, ?_⟩
  · simp only [check_semantic_comparison, check_z3_smt2]
    rw [if_neg (fun h => hu h.1), if_neg (fun h => hs h.1),
      if_neg (fun h => hu h.1), if_neg (fun h => hs h.1)]
  · simp only [check_semantic_comparison, check_z3_smt2]
    rw [if_neg (fun h => hu h.2), if_neg (fun h => hs h.2),
      if_neg (fun h => hs h.2), if_neg (fun h => hu h.2)]

/-- Witness for C9 amended at a concrete failure message. -/
theorem c9_amended_witness :
    check_semantic_comparison (.exn "boom") .timedOut .timedOut = "Z3_ERROR" ∧
    check_semantic_comparison .ok (.raised "boom") (.completed "sat") = "unknown" :=
  ⟨(c9_amended "boom" .timedOut .timedOut (.completed "sat")).1,
    (c9_amended "boom" .timedOut .timedOut (.completed "sat")).2.2.1⟩

/-- C5: on the edge table mapping 2 to 1, 3 to 2 and 4 to 3, with the
artifact of id 3 missing and all other artifacts present, the chain
built from start id 4 is exactly 4, 2, 1: the missing id 3 is not
appended, but the walk advances through it to its parent 2. -/
theorem c5_missing_node_skipped :
    get_derivation_chain "4" [("2", "1"), ("3", "2"), ("4", "3")]
      (fun p => p != specPath "3") = ["4", "2", "1"] := by decide


/-- Helper: filtering by a stronger predicate that some list element
with the weaker property fails gives a strictly shorter result. -/
theorem length_filter_lt {α : Type} (l : List α) (p q : α → Bool)
    (hpq : ∀ a, q a = true → p a = true) (a : α) (ha : a ∈ l)
    (hpa : p a = true) (hqa : q a = false) :
    (l.filter q).length < (l.filter p).length := by
  induction l with
  | nil => cases ha
  | cons b bs ih =>
    have hle : (bs.filter q).length ≤ (bs.filter p).length :=
      (List.monotone_filter_right bs hpq).length_le
    rw [List.filter_cons, List.filter_cons]
    rcases List.mem_cons.mp ha with hb | hb
    · subst hb
      rw [hpa, hqa, if_pos rfl, if_neg (by simp)]
      simp only [List.length_cons]
      omega
    · have hlt := ih hb
      by_cases hqb : q b = true
      · rw [hqb, hpq b hqb, if_pos rfl, if_pos rfl]
        simp only [List.length_cons]
        omega
      · have hqb' : q b = false := by simpa using hqb
        rw [hqb', if_neg (by simp)]
        by_cases hpb : p b = true
        · rw [hpb, if_pos rfl]
          simp only [List.length_cons]
          omega
        · have hpb' : p b = false := by simpa using hpb
          rw [hpb', if_neg (by simp)]
          omega

/-- Helper: a successful association-list lookup means the key occurs
among the mapped first components. -/
theorem lookup_mem_keys (dmap : List (String × String)) (current : String)
    (v : String) (h : dmap.lookup current = some v) :
    current ∈ dmap.map Prod.fst := by
  induction dmap with
  | nil => simp [List.lookup] at h
  | cons e es ih =>
    rcases e with ⟨k, w⟩
    by_cases hbeq : (current == k) = true
    · simp only [List.map_cons]
      exact List.mem_cons.mpr (Or.inl (eq_of_beq hbeq))
    · have hf : (current == k) = false := by simpa using hbeq
      rw [List.lookup, hf] at h
      exact List.mem_cons.mpr (Or.inr (ih h))

/-- Fuel sufficiency for `chainWalk`: once the fuel exceeds the number
of unvisited keys of the derivation map the result no longer depends on
it, because every loop iteration marks a fresh key visited.  The Python
while loop therefore terminates, and `get_derivation_chain` (which
supplies `dmap.length + 1` fuel) computes its exact result. -/
theorem chainWalk_stable (dmap : List (String × String)) (exf : String → Bool) :
    ∀ (fuel₁ fuel₂ : Nat) (current : String) (visited chain : List String),
      ((dmap.map Prod.fst).filter (fun k => decide (k ∉ visited))).length < fuel₁ →
      fuel₁ ≤ fuel₂ →
      chainWalk dmap exf fuel₁ current visited chain =
        chainWalk dmap exf fuel₂ current visited chain := by
  intro fuel₁
  induction fuel₁ with
  | zero => intro fuel₂ current visited chain hm _; omega
  | succ f ih =>
    intro fuel₂ current visited chain hm hle
    obtain ⟨f₂, rfl⟩ : ∃ f₂, fuel₂ = f₂ + 1 := ⟨fuel₂ - 1, by omega⟩
    simp only [chainWalk]
    cases hlk : dmap.lookup current with
    | none => rfl
    | some next_id =>
      dsimp only
      by_cases hv : current ∈ visited
      · rw [if_pos hv, if_pos hv]
      · have hkey : current ∈ dmap.map Prod.fst := lookup_mem_keys dmap current next_id hlk
        have hmeas : ((dmap.map Prod.fst).filter
            (fun k => decide (k ∉ current :: visited))).length < f := by
          have hstep := length_filter_lt (dmap.map Prod.fst)
            (fun k => decide (k ∉ visited)) (fun k => decide (k ∉ current :: visited))
            (by
              intro a ha
              simp only [decide_eq_true_eq, List.mem_cons, not_or] at ha ⊢
              exact ha.2)
            current hkey (by simpa using hv) (by simp)
          omega
        rw [if_neg hv, if_neg hv]
        by_cases hn : next_id = ""
        · rw [if_pos hn, if_pos hn]
        · rw [if_neg hn, if_neg hn]
          by_cases hmiss : ¬ exf (specPath next_id) = true ∧
              ¬ ends_with (specPath next_id) "nan.smt2" = true
          · rw [if_pos hmiss, if_pos hmiss]
            exact ih f₂ next_id (current :: visited) chain hmeas (by omega)
          · rw [if_neg hmiss, if_neg hmiss]
            exact ih f₂ next_id (current :: visited) (chain ++ [next_id]) hmeas (by omega)

/-- Invariant of the chain walk: at every loop entry the accumulated
chain is duplicate-free, except that its last element may equal the
current node when that node was already visited; all chain elements
other than the current node are visited.  Under this invariant the
returned chain is duplicate-free after dropping its last element. -/
theorem chainWalk_dropLast_nodup (dmap : List (String × String)) (exf : String → Bool) :
    ∀ (fuel : Nat) (current : String) (visited chain : List String),
      (chain.Nodup ∨ ∃ c x, chain = c ++ [x] ∧ c.Nodup ∧ x = current ∧ x ∈ visited) →
      (∀ x ∈ chain, x ≠ current → x ∈ visited) →
      (chainWalk dmap exf fuel current visited chain).dropLast.Nodup := by
  have exit : ∀ chain : List String,
      (chain.Nodup ∨ ∃ c x : _, chain = c ++ [x] ∧ c.Nodup ∧ x = x ∧ x ∈ ([x] : List String)) →
      chain.dropLast.Nodup := by
    intro chain h
    rcases h with h | ⟨c, x, rfl, hc, -, -⟩
    · exact (List.dropLast_sublist chain).nodup h
    · rwa [List.dropLast_concat]
  intro fuel
  induction fuel with
  | zero =>
    intro current visited chain h1 _
    refine exit chain (h1.imp id ?_)
    rintro ⟨c, x, hc, hn, -, -⟩
    exact ⟨c, x, hc, hn, rfl, List.mem_singleton.mpr rfl⟩
  | succ f ih =>
    intro current visited chain h1 h2
    simp only [chainWalk]
    cases hlk : dmap.lookup current with
    | none =>
      refine exit chain (h1.imp id ?_)
      rintro ⟨c, x, hc, hn, -, -⟩
      exact ⟨c, x, hc, hn, rfl, List.mem_singleton.mpr rfl⟩
    | some next_id =>
      dsimp only
      by_cases hv : current ∈ visited
      · rw [if_pos hv]
        refine exit chain (h1.imp id ?_)
        rintro ⟨c, x, hc, hn, -, -⟩
        exact ⟨c, x, hc, hn, rfl, List.mem_singleton.mpr rfl⟩
      · rw [if_neg hv]
        have hnodup : chain.Nodup := by
          rcases h1 with h1 | ⟨c, x, hc, hn, hx, hxv⟩
          · exact h1
          · exact absurd (hx ▸ hxv) hv
        have h2' : ∀ x ∈ chain, x ≠ next_id → x ∈ current :: visited := by
          intro x hx _
          by_cases hxc : x = current
          · exact hxc ▸ List.mem_cons_self current visited
          · exact List.mem_cons_of_mem current (h2 x hx hxc)
        by_cases hn : next_id = ""
        · rw [if_pos hn]
          exact exit chain (Or.inl hnodup)
        · rw [if_neg hn]
          by_cases hmiss : ¬ exf (specPath next_id) = true ∧
              ¬ ends_with (specPath next_id) "nan.smt2" = true
          · rw [if_pos hmiss]
            exact ih next_id (current :: visited) chain (Or.inl hnodup) h2'
          · rw [if_neg hmiss]
            refine ih next_id (current :: visited) (chain ++ [next_id]) ?_ ?_
            · by_cases hmem : next_id ∈ chain
              · refine Or.inr ⟨chain, next_id, rfl, hnodup, rfl, ?_⟩
                by_cases hnc : next_id = current
                · exact hnc ▸ List.mem_cons_self current visited
                · exact List.mem_cons_of_mem current (h2 next_id hmem hnc)
              · refine Or.inl (List.nodup_append.mpr
                  ⟨hnodup, List.nodup_singleton _, ?_⟩)
                intro a ha hb
                rw [List.mem_singleton] at hb
                exact hmem (hb ▸ ha)
            · intro x hx hxn
              rcases List.mem_append.mp hx with hx | hx
              · exact h2' x hx hxn
              · exact absurd (List.mem_singleton.mp hx) hxn

/-- C3 counterexample: on the self-loop edge table mapping 1 to itself,
with the artifact present, the walk appends the cycle-closing node once
before the visited guard stops it, so the chain 1, 1 repeats an id. -/
theorem c3_counterexample :
    ¬ (get_derivation_chain "1" [("1", "1")] (fun _ => true)).Nodup := by decide

/-- C3 amended: for every edge table and starting id, no id appears
twice in the produced chain except that the final element may repeat an
earlier id when the walk closes a cycle; equivalently, the chain with
its last element dropped is duplicate-free. -/
theorem c3_amended (start_id : String) (dmap : List (String × String))
    (exf : String → Bool) :
    (get_derivation_chain start_id dmap exf).dropLast.Nodup := by
  refine chainWalk_dropLast_nodup dmap exf (dmap.length + 1) start_id [] [start_id]
    (Or.inl (List.nodup_singleton start_id)) ?_
  intro x hx hxs
  exact absurd (List.mem_singleton.mp hx) hxs

/-- Witness for C3 amended at the self-loop table. -/
theorem c3_amended_witness :
    (get_derivation_chain "1" [("1", "1")] (fun _ => true)).dropLast.Nodup :=
  c3_amended "1" [("1", "1")] (fun _ => true)

/-- Helper: membership in the filtered chain collection gives
membership in the original collection together with maximality: any
superset chain in the collection is the chain itself. -/
theorem mem_longest_chains (all_chains : List (List String)) (C : List String)
    (h : C ∈ longest_chains all_chains) :
    C ∈ all_chains ∧ ∀ D ∈ all_chains, C.toFinset ⊆ D.toFinset → C = D := by
  rw [longest_chains, List.mem_filter] at h
  refine ⟨h.1, fun D hD hsub => ?_⟩
  by_contra hne
  have h2 := h.2
  rw [Bool.not_eq_true', List.any_eq_false] at h2
  have hDfalse := h2 D hD
  simp only [Bool.and_eq_true, decide_eq_true_eq, bne_iff_ne, ne_eq] at hDfalse
  exact hDfalse ⟨hsub, hne⟩

/-- C6: for every edge table and existence predicate, the final chain
collection after the containment filter holds no two chains whose id
sets are in strict inclusion. -/
theorem c6_maximal_chains (dmap : List (String × String)) (exf : String → Bool)
    (C D : List String) (hC : C ∈ buildChains dmap exf)
    (hD : D ∈ buildChains dmap exf) :
    ¬ C.toFinset ⊂ D.toFinset := by
  intro hss
  rw [buildChains] at hC hD
  obtain ⟨hCall, hCmax⟩ := mem_longest_chains _ _ hC
  obtain ⟨hDall, -⟩ := mem_longest_chains _ _ hD
  obtain ⟨hsub, hne⟩ := Finset.ssubset_iff_subset_ne.mp hss
  exact hne (congrArg List.toFinset (hCmax D hDall hsub))

/-- Witness for C6 at a one-edge table. -/
theorem c6_maximal_chains_witness :
    (["2", "1"] ∈ buildChains [("2", "1")] (fun _ => true)) ∧
    ¬ (["2", "1"] : List String).toFinset ⊂ (["2", "1"] : List String).toFinset :=
  ⟨by decide, c6_maximal_chains [("2", "1")] (fun _ => true) ["2", "1"] ["2", "1"]
    (by decide) (by decide)⟩

/-- C10: in the consecutive-pair pass, an adjacent pair whose endpoint
check records contain ERROR contributes an "ERROR" entry to the label
list, but a pair with a missing spec file (and no ERROR record)
contributes nothing, so the emitted list can be shorter than the number
of adjacent pairs and its entries no longer align with positions: on
the chain x, y, z with the artifact of x missing, the only emitted
label is the classification of the pair y, z sitting at index 0. -/
theorem c10_consecutive_alignment :
    (∀ (classify : String → String → String) (exf : String → Bool)
        (cmap : String → List String) (chain : List String) (i : Nat),
      i + 1 < chain.length →
      ("ERROR" ∈ cmap (basename (specPath (chain.getD i ""))) ∨
        "ERROR" ∈ cmap (basename (specPath (chain.getD (i + 1) "")))) →
      "ERROR" ∈ consecutive_results classify exf cmap chain) ∧
    (∀ classify : String → String → String,
      consecutive_results classify (fun p => p != specPath "x") (fun _ => [])
        ["x", "y", "z"] = [classify (specPath "y") (specPath "z")] ∧
      (consecutive_results classify (fun p => p != specPath "x") (fun _ => [])
        ["x", "y", "z"]).length < 3 - 1) := by
  constructor
  · intro classify exf cmap chain i hi herr
    rw [consecutive_results, if_neg (by omega)]
    rw [List.mem_filterMap]
    refine ⟨i, List.mem_range.mpr (by omega), ?_⟩
    dsimp only
    rw [if_pos herr]
  · intro classify
    have heq : consecutive_results classify (fun p => p != specPath "x") (fun _ => [])
        ["x", "y", "z"] = [classify (specPath "y") (specPath "z")] := rfl
    exact ⟨heq, by rw [heq]; simp⟩

/-- Witness for C10 at a concrete classifier, record table and chain. -/
theorem c10_consecutive_alignment_witness :
    "ERROR" ∈ consecutive_results (fun _ _ => "equivalent") (fun _ => true)
      (fun b => if b = "x.smt2" then ["ERROR"] else []) ["x", "y"] ∧
    (consecutive_results (fun _ _ => "equivalent") (fun p => p != specPath "x")
      (fun _ => []) ["x", "y", "z"]).length < 3 - 1 :=
  ⟨c10_consecutive_alignment.1 (fun _ _ => "equivalent") (fun _ => true)
      (fun b => if b = "x.smt2" then ["ERROR"] else []) ["x", "y"] 0
      (by decide) (by decide),
    (c10_consecutive_alignment.2 (fun _ _ => "equivalent")).2⟩

/-- The candidate pair (i, j) gets counted and recorded by the pass:
neither endpoint record carries ERROR, the intermediate scan does not
set the skip flag, and the direct classification hits the target. -/
def pair_counted (classify : String → String → String) (exf : String → Bool)
    (cmap : String → List String) (target : String) (chain : List String)
    (ij : Nat × Nat) : Prop :=
  ¬ ("ERROR" ∈ cmap (basename (specPath (chain.getD ij.1 ""))) ∨
      "ERROR" ∈ cmap (basename (specPath (chain.getD ij.2 "")))) ∧
  (scan_intermediates classify exf cmap target chain
    (List.range' (ij.1 + 1) (ij.2 - (ij.1 + 1)))).1 = false ∧
  classify (specPath (chain.getD ij.1 "")) (specPath (chain.getD ij.2 "")) = target

instance (classify : String → String → String) (exf : String → Bool)
    (cmap : String → List String) (target : String) (chain : List String)
    (ij : Nat × Nat) : Decidable (pair_counted classify exf cmap target chain ij) := by
  unfold pair_counted; infer_instance

/-- The classification calls the processing of the candidate pair
(i, j) issues: none when an endpoint record carries ERROR, the
intermediate-scan calls when the scan set the skip flag, and the scan
calls followed by the direct call otherwise. -/
def pair_calls (classify : String → String → String) (exf : String → Bool)
    (cmap : String → List String) (target : String) (chain : List String)
    (ij : Nat × Nat) : List (String × String) :=
  if "ERROR" ∈ cmap (basename (specPath (chain.getD ij.1 ""))) ∨
      "ERROR" ∈ cmap (basename (specPath (chain.getD ij.2 ""))) then []
  else
    let scan := scan_intermediates classify exf cmap target chain
      (List.range' (ij.1 + 1) (ij.2 - (ij.1 + 1)))
    if scan.1 then scan.2
    else scan.2 ++ [(specPath (chain.getD ij.1 ""), specPath (chain.getD ij.2 ""))]

/-- Helper: one pair step adds one count and records the pair exactly
when `pair_counted` holds, and always appends `pair_calls`. -/
theorem process_pair_eq (classify : String → String → String) (exf : String → Bool)
    (cmap : String → List String) (target : String) (chain : List String)
    (st : PairPassState) (ij : Nat × Nat) :
    process_pair classify exf cmap target chain st ij =
      { count := st.count +
          (if pair_counted classify exf cmap target chain ij then 1 else 0),
        pairs := st.pairs ++
          (if pair_counted classify exf cmap target chain ij then [ij] else []),
        calls := st.calls ++ pair_calls classify exf cmap target chain ij } := by
  rcases ij with ⟨i, j⟩
  rcases st with ⟨cnt, prs, cls⟩
  simp only [process_pair, pair_calls]
  by_cases herr : "ERROR" ∈ cmap (basename (specPath (chain.getD i ""))) ∨
      "ERROR" ∈ cmap (basename (specPath (chain.getD j "")))
  · have hnc : ¬ pair_counted classify exf cmap target chain (i, j) := fun h => h.1 herr
    rw [if_pos herr, if_pos herr]
    simp only [if_neg hnc]
    simp
  · rw [if_neg herr, if_neg herr]
    by_cases hsk : (scan_intermediates classify exf cmap target chain
        (List.range' (i + 1) (j - (i + 1)))).1 = true
    · have hnc : ¬ pair_counted classify exf cmap target chain (i, j) := by
        intro h
        have h21 := h.2.1
        rw [hsk] at h21
        cases h21
      rw [if_pos hsk, if_pos hsk]
      simp only [if_neg hnc]
      simp
    · rw [if_neg hsk, if_neg hsk]
      by_cases hres : classify (specPath (chain.getD i ""))
          (specPath (chain.getD j "")) = target
      · have hc : pair_counted classify exf cmap target chain (i, j) :=
          ⟨herr, by simpa using hsk, hres⟩
        rw [if_pos hres]
        simp only [if_pos hc]
        simp [List.append_assoc]
      · have hnc : ¬ pair_counted classify exf cmap target chain (i, j) :=
          fun h => hres h.2.2
        rw [if_neg hres]
        simp only [if_neg hnc]
        simp [List.append_assoc]

/-- Helper: the fold over any candidate list records exactly the
counted candidates in order, counts them, and concatenates the call
lists of every candidate. -/
theorem foldl_process_pair (classify : String → String → String) (exf : String → Bool)
    (cmap : String → List String) (target : String) (chain : List String) :
    ∀ (L : List (Nat × Nat)) (st : PairPassState),
      L.foldl (process_pair classify exf cmap target chain) st =
        { count := st.count + (L.filter (fun ij =>
            decide (pair_counted classify exf cmap target chain ij))).length,
          pairs := st.pairs ++ L.filter (fun ij =>
            decide (pair_counted classify exf cmap target chain ij)),
          calls := st.calls ++ L.flatMap
            (pair_calls classify exf cmap target chain) } := by
  intro L
  induction L with
  | nil => intro st; simp
  | cons c cs ih =>
    intro st
    rw [List.foldl_cons, process_pair_eq, ih]
    rw [List.filter_cons, List.flatMap_cons]
    by_cases hc : pair_counted classify exf cmap target chain c
    · have hcd : decide (pair_counted classify exf cmap target chain c) = true :=
        decide_eq_true hc
      rw [if_pos hcd]
      simp only [if_pos hc]
      rw [PairPassState.mk.injEq]
      refine ⟨?_, ?_, ?_⟩
      · simp only [List.length_cons]
        omega
      · simp [List.append_assoc]
      · simp [List.append_assoc]
    · have hcd : ¬ decide (pair_counted classify exf cmap target chain c) = true := by
        simpa using hc
      rw [if_neg hcd]
      simp only [if_neg hc]
      rw [PairPassState.mk.injEq]
      refine ⟨?_, ?_, ?_⟩
      · omega
      · simp
      · simp [List.append_assoc]

/-- Characterization of one whole pass over a chain. -/
theorem process_chain_eq (classify : String → String → String) (exf : String → Bool)
    (cmap : String → List String) (target : String) (chain : List String) :
    process_chain classify exf cmap target chain =
      { count := ((candidate_pairs chain.length).filter (fun ij =>
          decide (pair_counted classify exf cmap target chain ij))).length,
        pairs := (candidate_pairs chain.length).filter (fun ij =>
          decide (pair_counted classify exf cmap target chain ij)),
        calls := (candidate_pairs chain.length).flatMap
          (pair_calls classify exf cmap target chain) } := by
  rw [process_chain, foldl_process_pair]
  simp

/-- Membership in the candidate list matches the loop bounds. -/
theorem mem_candidate_pairs (n i j : Nat) :
    (i, j) ∈ candidate_pairs n ↔ i + 2 ≤ j ∧ j < n := by
  simp only [candidate_pairs, List.mem_flatMap, List.mem_map, List.mem_range,
    List.mem_range'_1, Prod.mk.injEq]
  constructor
  · rintro ⟨a, ha, b, ⟨hb1, hb2⟩, rfl, rfl⟩
    omega
  · rintro ⟨h1, h2⟩
    exact ⟨i, by omega, j, ⟨by omega, by omega⟩, rfl, rfl⟩

/-- The intermediate scan leaves the skip flag clear exactly when every
scanned position is usable and off-target. -/
theorem scan_intermediates_false_iff (classify : String → String → String)
    (exf : String → Bool) (cmap : String → List String) (target : String)
    (chain : List String) :
    ∀ ks : List Nat,
      (scan_intermediates classify exf cmap target chain ks).1 = false ↔
        ∀ k ∈ ks, inter_ok classify exf cmap target chain k := by
  intro ks
  induction ks with
  | nil => simp [scan_intermediates]
  | cons k ks ih =>
    simp only [scan_intermediates]
    by_cases h1 : ¬ exf (specPath (chain.getD (k - 1) "")) = true ∨
        ¬ exf (specPath (chain.getD k "")) = true
    · rw [if_pos h1]
      refine iff_of_false (by simp) (fun hall => ?_)
      have hk := hall k (List.mem_cons_self k ks)
      rcases h1 with h1 | h1
      · exact h1 hk.1
      · exact h1 hk.2.1
    · rw [if_neg h1]
      push_neg at h1
      by_cases h2 : "ERROR" ∈ cmap (basename (specPath (chain.getD (k - 1) ""))) ∨
          "ERROR" ∈ cmap (basename (specPath (chain.getD k "")))
      · rw [if_pos h2]
        refine iff_of_false (by simp) (fun hall => ?_)
        have hk := hall k (List.mem_cons_self k ks)
        rcases h2 with h2 | h2
        · exact hk.2.2.1 h2
        · exact hk.2.2.2.1 h2
      · rw [if_neg h2]
        by_cases h3 : classify (specPath (chain.getD (k - 1) ""))
            (specPath (chain.getD k "")) = target
        · rw [if_pos h3]
          refine iff_of_false (by simp) (fun hall => ?_)
          exact (hall k (List.mem_cons_self k ks)).2.2.2.2 h3
        · rw [if_neg h3]
          dsimp only
          rw [List.forall_mem_cons, ih]
          have hok : inter_ok classify exf cmap target chain k :=
            ⟨h1.1, h1.2, fun hh => h2 (Or.inl hh), fun hh => h2 (Or.inr hh), h3⟩
          simp [hok]

/-- C1: for a chain, indices j at least i + 2 with j inside the chain,
and ERROR-free endpoint records, the pass records (i, j) in the pair
list exactly when every intermediate adjacent pair has both artifacts,
has no ERROR record and classifies off-target, and the direct
classification of (i, j) hits the target; the count always equals the
number of recorded pairs; and when the intermediate condition fails the
pair step leaves count and pairs unchanged and issues no direct
classification call, only the intermediate-scan calls. -/
theorem c1_nonconsecutive_pairs
    (classify : String → String → String) (exf : String → Bool)
    (cmap : String → List String) (target : String) (chain : List String)
    (i j : Nat) (hij : i + 2 ≤ j) (hj : j < chain.length)
    (hei : ¬ has_error_record cmap (chain.getD i ""))
    (hej : ¬ has_error_record cmap (chain.getD j "")) :
    ((i, j) ∈ (process_chain classify exf cmap target chain).pairs ↔
      ((∀ k, i + 1 ≤ k → k < j → inter_ok classify exf cmap target chain k) ∧
        classify (specPath (chain.getD i "")) (specPath (chain.getD j "")) = target)) ∧
    (process_chain classify exf cmap target chain).count =
      (process_chain classify exf cmap target chain).pairs.length ∧
    ((¬ ∀ k, i + 1 ≤ k → k < j → inter_ok classify exf cmap target chain k) →
      ∀ st, process_pair classify exf cmap target chain st (i, j) =
        { st with calls := st.calls ++ (scan_intermediates classify exf cmap target chain
            (List.range' (i + 1) (j - (i + 1)))).2 }) := by
  have hrange : ∀ k, k ∈ List.range' (i + 1) (j - (i + 1)) ↔ i + 1 ≤ k ∧ k < j := by
    intro k
    rw [List.mem_range'_1]
    omega
  have hscan_iff : (scan_intermediates classify exf cmap target chain
      (List.range' (i + 1) (j - (i + 1)))).1 = false ↔
      (∀ k, i + 1 ≤ k → k < j → inter_ok classify exf cmap target chain k) := by
    rw [scan_intermediates_false_iff]
    constructor
    · intro h k h1 h2
      exact h k ((hrange k).mpr ⟨h1, h2⟩)
    · intro h k hk
      obtain ⟨h1, h2⟩ := (hrange k).mp hk
      exact h k h1 h2
  refine ⟨?_, ?_, ?_⟩
  · rw [process_chain_eq]
    dsimp only
    rw [List.mem_filter]
    constructor
    · rintro ⟨-, hcnt⟩
      have hpc := of_decide_eq_true hcnt
      exact ⟨hscan_iff.mp hpc.2.1, hpc.2.2⟩
    · rintro ⟨hall, hres⟩
      refine ⟨(mem_candidate_pairs chain.length i j).mpr ⟨hij, hj⟩, decide_eq_true ?_⟩
      exact ⟨fun h => h.elim hei hej, hscan_iff.mpr hall, hres⟩
  · rw [process_chain_eq]
  · intro hnot st
    have hsk : (scan_intermediates classify exf cmap target chain
        (List.range' (i + 1) (j - (i + 1)))).1 = true := by
      cases hb : (scan_intermediates classify exf cmap target chain
          (List.range' (i + 1) (j - (i + 1)))).1 with
      | false => exact (hnot (hscan_iff.mp hb)).elim
      | true => rfl
    simp only [process_pair]
    rw [if_neg (fun h => h.elim hei hej), if_pos hsk]

/-- Concrete classifier for the C1 witness: the adjacent pair a, b is
incomparable, everything else equivalent. -/
def c1w_classify (p q : String) : String :=
  if p = specPath "a" ∧ q = specPath "b" then "incomparable" else "equivalent"

/-- Witness for C1: on the chain a, b, c with target equivalent the
pair (0, 2) is recorded, by the characterization applied at a concrete
input. -/
theorem c1_nonconsecutive_pairs_witness :
    (0, 2) ∈ (process_chain c1w_classify (fun _ => true) (fun _ => [])
      "equivalent" ["a", "b", "c"]).pairs :=
  ((c1_nonconsecutive_pairs c1w_classify (fun _ => true) (fun _ => []) "equivalent"
      ["a", "b", "c"] 0 2 (by decide) (by decide) (by decide) (by decide)).1).mpr
    ⟨by
      intro k hk1 hk2
      have hk : k = 1 := by omega
      subst hk
      decide, by decide⟩

/-- Concrete classifier for the C4 counterexample: the pairs (a, c) and
(a, d) are equivalent, everything else incomparable. -/
def classifyC4 (p q : String) : String :=
  if p = specPath "a" ∧ q = specPath "c" then "equivalent"
  else if p = specPath "a" ∧ q = specPath "d" then "equivalent"
  else "incomparable"

/-- C4 counterexample: on the 4-chain a, b, c, d with target
equivalent, all artifacts present and no ERROR records, even though the
gap-2 pair (a, c) classifies to equivalent, the pair (a, d) is directly
classified (its call appears in the trace) and is counted, contrary to
the claim that it is skipped. -/
theorem c4_counterexample :
    classifyC4 (specPath "a") (specPath "c") = "equivalent" ∧
    (specPath "a", specPath "d") ∈ (process_chain classifyC4 (fun _ => true)
      (fun _ => []) "equivalent" ["a", "b", "c", "d"]).calls ∧
    (0, 3) ∈ (process_chain classifyC4 (fun _ => true) (fun _ => [])
      "equivalent" ["a", "b", "c", "d"]).pairs := by
  refine ⟨by decide, by decide, by decide⟩

/-- C4 amended: on the 4-chain a, b, c, d with target equivalent, all
artifacts present and no ERROR records, when the adjacent intermediate
pairs (a, b) and (b, c) classify off-target, the candidate (a, d) is
directly classified even if classify (a, c) = equivalent (the pruner
only scans adjacent intermediates), and (a, d) is counted exactly when
its own label is the target. -/
theorem c4_amended (classify : String → String → String)
    (hac : classify (specPath "a") (specPath "c") = "equivalent")
    (hab : classify (specPath "a") (specPath "b") ≠ "equivalent")
    (hbc : classify (specPath "b") (specPath "c") ≠ "equivalent") :
    (specPath "a", specPath "d") ∈ (process_chain classify (fun _ => true)
      (fun _ => []) "equivalent" ["a", "b", "c", "d"]).calls ∧
    ((0, 3) ∈ (process_chain classify (fun _ => true) (fun _ => [])
      "equivalent" ["a", "b", "c", "d"]).pairs ↔
      classify (specPath "a") (specPath "d") = "equivalent") := by
  have hall : ∀ k ∈ List.range' (0 + 1) (3 - (0 + 1)),
      inter_ok classify (fun _ => true) (fun _ => []) "equivalent"
        ["a", "b", "c", "d"] k := by
    intro k hk
    rw [List.mem_range'_1] at hk
    have hk12 : k = 1 ∨ k = 2 := by omega
    rcases hk12 with rfl | rfl
    · exact ⟨rfl, rfl, by simp [has_error_record], by simp [has_error_record], hab⟩
    · exact ⟨rfl, rfl, by simp [has_error_record], by simp [has_error_record], hbc⟩
  have hsk : (scan_intermediates classify (fun _ => true) (fun _ => []) "equivalent"
      ["a", "b", "c", "d"] (List.range' (0 + 1) (3 - (0 + 1)))).1 = false :=
    (scan_intermediates_false_iff classify (fun _ => true) (fun _ => [])
      "equivalent" ["a", "b", "c", "d"] (List.range' (0 + 1) (3 - (0 + 1)))).mpr hall
  constructor
  · rw [process_chain_eq]
    dsimp only
    rw [List.mem_flatMap]
    refine ⟨(0, 3), by decide, ?_⟩
    rw [pair_calls]
    dsimp only
    rw [if_neg (by simp), if_neg (by rw [hsk]; simp)]
    rw [List.mem_append]
    exact Or.inr (List.mem_singleton.mpr rfl)
  · rw [process_chain_eq]
    dsimp only
    rw [List.mem_filter]
    constructor
    · rintro ⟨-, hcnt⟩
      exact (of_decide_eq_true hcnt).2.2
    · intro hres
      refine ⟨by decide, decide_eq_true ?_⟩
      exact ⟨by simp, hsk, hres⟩

/-- Witness for C4 amended at the concrete classifier of the
counterexample scenario. -/
theorem c4_amended_witness :
    (specPath "a", specPath "d") ∈ (process_chain classifyC4 (fun _ => true)
      (fun _ => []) "equivalent" ["a", "b", "c", "d"]).calls ∧
    ((0, 3) ∈ (process_chain classifyC4 (fun _ => true) (fun _ => [])
      "equivalent" ["a", "b", "c", "d"]).pairs ↔
      classifyC4 (specPath "a") (specPath "d") = "equivalent") :=
  c4_amended classifyC4 (by decide) (by decide) (by decide)

end SmtMetrics
